import Mathlib

/-!
Verification of the go-satnogs client (a minimal Go client for the SatNOGS
satellite-telemetry HTTP API) against its natural-language specification.

The Go source is shallowly embedded:

* Go strings are byte sequences, modelled as `List Nat` (each element a byte
  value `< 256`; ASCII literals are produced by `bytesOf`).
* The network and the JSON codec (`net/http`, `encoding/json`) are abstracted
  as an oracle `HttpEnv`: a transport function returning a latency and either
  a transport error or a raw body, and a decode function from bodies to
  `TelemetryResponse` values.  `clientDo` models `http.Client.Do` with its
  `Timeout` field: a call whose latency exceeds the client's timeout returns
  a timeout-flagged network error.
* Go multiple returns `(T, error)` are modelled as `Option T × Option GoError`
  pairs, so that the `(nil, nil)` shape of the pagination walkers' terminal
  state is expressible.
* The query-string machinery of `net/url` that `Get` exercises
  (`url.Parse`, `Values.Add`, `Values.Encode`, `ParseQuery`, `QueryEscape`,
  `QueryUnescape`) is modelled concretely and executably below.  Go's
  `url.Values` is an unordered map whose `Encode` sorts keys; it is modelled
  as an association list kept sorted by key at insertion, which yields the
  same encoded string.
-/

/-- Byte string of an ASCII Lean string literal (byte values coincide with
code points on ASCII, which is all the client's literals use). -/
def bytesOf (s : String) : List Nat := s.data.map Char.toNat

/-- A byte string is well formed when every element is an actual byte. -/
def bytesOK (s : List Nat) : Prop := ∀ b ∈ s, b < 256

instance (s : List Nat) : Decidable (bytesOK s) := by
  unfold bytesOK; infer_instance

/-- Go `shouldEscape` alphanumeric test. -/
def isAlnum (b : Nat) : Bool :=
  (65 ≤ b && b ≤ 90) || (97 ≤ b && b ≤ 122) || (48 ≤ b && b ≤ 57)

/-- Bytes left unescaped by Go's `url.QueryEscape` (mode
`encodeQueryComponent` of `shouldEscape`): alphanumerics and `-` `_` `.` `~`. -/
def isUnreservedQuery (b : Nat) : Bool :=
  isAlnum b || b == 45 || b == 95 || b == 46 || b == 126

/-- Upper-case hex digit byte, as Go's escaping emits (`"0123456789ABCDEF"`). -/
def hexUpper (n : Nat) : Nat := if n < 10 then 48 + n else 55 + n

/-- Inverse of a hex digit byte, accepting both cases as Go's `ishex`/`unhex`. -/
def hexVal (b : Nat) : Option Nat :=
  if 48 ≤ b ∧ b ≤ 57 then some (b - 48)
  else if 65 ≤ b ∧ b ≤ 70 then some (b - 55)
  else if 97 ≤ b ∧ b ≤ 102 then some (b - 87)
  else none

/-- One byte of Go's `url.QueryEscape`: unreserved bytes pass through, space
becomes `+`, everything else becomes `%XX`. -/
def queryEscapeByte (b : Nat) : List Nat :=
  if isUnreservedQuery b then [b]
  else if b = 32 then [43]
  else [37, hexUpper (b / 16), hexUpper (b % 16)]

/-- Go's `url.QueryEscape` over a byte string. -/
def queryEscape (s : List Nat) : List Nat := (s.map queryEscapeByte).flatten

/-- Go's `url.QueryUnescape` (mode `encodeQueryComponent`): `%` must be
followed by two hex digits or the whole unescape fails, `+` decodes to a
space, every other byte passes through. -/
def queryUnescape : List Nat → Option (List Nat)
  | [] => some []
  | b :: t =>
    if b = 37 then
      match t with
      | h1 :: h2 :: t2 =>
        match hexVal h1, hexVal h2 with
        | some v1, some v2 => (queryUnescape t2).map (fun r => (16 * v1 + v2) :: r)
        | _, _ => none
      | _ => none
    else if b = 43 then (queryUnescape t).map (fun r => 32 :: r)
    else (queryUnescape t).map (fun r => b :: r)

/-- Go's bytewise lexicographic string comparison `<`, used by the
`sort.Strings` call inside `url.Values.Encode`. -/
def ltBytes : List Nat → List Nat → Bool
  | [], [] => false
  | [], _ :: _ => true
  | _ :: _, [] => false
  | a :: s, b :: t => if a < b then true else if b < a then false else ltBytes s t

/-- Go's `url.Values` (`map[string][]string`).  The map is unordered and
`Encode` sorts its keys, so it is modelled as an association list kept
sorted by key at insertion; `Encode` then emits entries in list order,
producing exactly the string Go produces. -/
abbrev Values := List (List Nat × List (List Nat))

/-- Go's `Values.Add`: append the value to the key's slice (`m[k] =
append(m[k], v)`), keeping the association list sorted by key. -/
def valuesAdd : Values → List Nat → List Nat → Values
  | [], k, v => [(k, [v])]
  | (k0, vs0) :: rest, k, v =>
    if k = k0 then (k0, vs0 ++ [v]) :: rest
    else if ltBytes k k0 then (k, [v]) :: (k0, vs0) :: rest
    else (k0, vs0) :: valuesAdd rest k v

/-- Go's map indexing `m[k]`: the slice of values stored under `k`
(empty when absent). -/
def valuesGet : Values → List Nat → List (List Nat)
  | [], _ => []
  | (k0, vs0) :: rest, k => if k = k0 then vs0 else valuesGet rest k

/-- Flatten a `Values` map into its key/value pairs in emission order. -/
def pairsOf (vs : Values) : List (List Nat × List Nat) :=
  (vs.map (fun kv => kv.2.map (fun v => (kv.1, v)))).flatten

/-- One `key=value` segment of `Values.Encode`, both sides query-escaped. -/
def encSeg (p : List Nat × List Nat) : List Nat :=
  queryEscape p.1 ++ 61 :: queryEscape p.2

/-- Join segments with `&` (38), as `Values.Encode` does between entries. -/
def joinAmp : List (List Nat) → List Nat
  | [] => []
  | [s] => s
  | s :: ss => s ++ 38 :: joinAmp ss

/-- Go's `url.Values.Encode`: sorted keys (already maintained sorted here),
each value as an escaped `key=value` segment, segments joined by `&`. -/
def encodeValues (vs : Values) : List Nat := joinAmp ((pairsOf vs).map encSeg)

/-- Segments of a raw query as Go's `ParseQuery` loop cuts them: repeatedly
cut at the first `&` while the remainder is non-empty. -/
def splitAmp : List Nat → List (List Nat)
  | [] => []
  | b :: t =>
    if b = 38 then [] :: splitAmp t
    else
      match splitAmp t with
      | [] => [[b]]
      | s :: ss => (b :: s) :: ss

/-- Go's `strings.Cut(seg, "=")` as `ParseQuery` uses it: the part before
the first `=` and the part after (after-part empty when `=` is absent). -/
def cutEq : List Nat → List Nat × List Nat
  | [] => ([], [])
  | b :: t => if b = 61 then ([], t) else
      (fun p => (b :: p.1, p.2)) (cutEq t)

/-- One iteration of Go's `ParseQuery` loop on a cut segment: a segment
containing `;` (59) is rejected (error recorded, pair skipped), an empty
segment is skipped, otherwise the segment is cut at `=`, both sides are
query-unescaped (a failed unescape records the error and skips the pair),
and the pair is added to the map.  The `Bool` is the error flag. -/
def parseSeg (acc : Values × Bool) (seg : List Nat) : Values × Bool :=
  if 59 ∈ seg then (acc.1, true)
  else if seg = [] then acc
  else
    match queryUnescape (cutEq seg).1, queryUnescape (cutEq seg).2 with
    | some k, some v => (valuesAdd acc.1 k v, acc.2)
    | _, _ => (acc.1, true)

/-- Go's `url.ParseQuery`: fold the loop body over the `&`-cut segments,
starting from an empty map and a clear error flag. -/
def parseQuery (q : List Nat) : Values × Bool :=
  (splitAmp q).foldl parseSeg ([], false)

/-- Fold `Values.Add` over a pair list (the request builder's loop body). -/
def addAll (init : Values) (ps : List (List Nat × List Nat)) : Values :=
  ps.foldl (fun m p => valuesAdd m p.1 p.2) init

/-- The parameter invariant every `Values` built by the client satisfies:
keys strictly sorted (as insertion maintains), every key and value an
actual byte string, and no key with an empty value slice. -/
def ValuesWF (vs : Values) : Prop :=
  vs.Pairwise (fun a b => ltBytes a.1 b.1 = true) ∧
  ∀ kv ∈ vs, bytesOK kv.1 ∧ kv.2 ≠ [] ∧ ∀ w ∈ kv.2, bytesOK w

/-- Cut a byte string at the first occurrence of `sep`: the part before,
and `some` remainder when `sep` occurs (Go's `strings.Cut`). -/
def cutAt (sep : Nat) : List Nat → List Nat × Option (List Nat)
  | [] => ([], none)
  | b :: t =>
    if b = sep then ([], some t)
    else (fun p => (b :: p.1, p.2)) (cutAt sep t)

/-- Model of Go's `net/url` URL as the client exercises it: `pre` is
everything before the query (scheme, host and path, kept verbatim as an
uninterpreted byte string), `RawQuery` the query string, `forceQuery` Go's flag recording a
trailing `?` with an empty query, and `fragment` the part after `#`. -/
structure URL where
  pre : List Nat
  forceQuery : Bool
  RawQuery : List Nat
  fragment : Option (List Nat)
deriving DecidableEq

/-- Model of `url.Parse` restricted to what the client exercises: a URL
containing an ASCII control byte is rejected (as Go rejects control
characters in URLs); otherwise the fragment is cut at the first `#` and
the query at the first `?`, and the rest is kept verbatim in `pre`. -/
def urlParse (s : List Nat) : Option URL :=
  if s.any (fun b => b < 32 || b == 127) then none
  else
    let c1 := cutAt 35 s
    let c2 := cutAt 63 c1.1
    some { pre := c2.1, forceQuery := c2.2 == some [],
           RawQuery := (c2.2).getD [], fragment := c1.2 }

/-- Model of `url.URL.String`: `pre`, then `?` and the query when the query
is non-empty or was forced, then `#` and the fragment when present. -/
def urlString (u : URL) : List Nat :=
  u.pre ++ (if u.forceQuery || !u.RawQuery.isEmpty then 63 :: u.RawQuery else [])
    ++ (match u.fragment with
        | some f => 35 :: f
        | none => [])

/-- Go's `url.URL.Query()`: `ParseQuery` on `RawQuery`, parse error ignored. -/
def URL_Query (u : URL) : Values := (parseQuery u.RawQuery).1

/-- A transport failure (Go's `*url.Error` from `http.Client.Do`); the
`isTimeout` flag is Go's `net.Error.Timeout()`. -/
structure NetworkError where
  isTimeout : Bool
  msg : List Nat
deriving DecidableEq

/-- A JSON decode failure (an error from `encoding/json`'s `Decode`). -/
structure DecodeError where
  msg : List Nat
deriving DecidableEq

/-- The error values the client can return, by kind: URL-composition
errors from `url.Parse`/`http.NewRequest` (carrying the offending string),
transport errors from `http.Client.Do`, and JSON decode errors. -/
inductive GoError where
  | url (bad : List Nat)
  | network (e : NetworkError)
  | decode (e : DecodeError)
deriving DecidableEq

/-- The timeout error `http.Client.Do` produces when the `Timeout` is
exceeded. -/
def timeoutErr : GoError :=
  GoError.network { isTimeout := true,
                    msg := bytesOf "Client.Timeout exceeded while awaiting headers" }

/-- Go's `urlParam` struct: one query key/value pair. -/
structure urlParam where
  Key : List Nat
  Value : List Nat
deriving DecidableEq

/-- The query-building loop of `Get`:
`for _, param := range params { q.Add(param.Key, param.Value) }`. -/
def addAllParams (init : Values) (ps : List urlParam) : Values :=
  ps.foldl (fun m p => valuesAdd m p.Key p.Value) init

/-- The values a parameter list supplies under one key, in order and with
multiplicity. -/
def valuesOf (ps : List urlParam) (k : List Nat) : List (List Nat) :=
  (ps.filter (fun p => p.Key == k)).map urlParam.Value

/-- Go's `Client` struct: the embedded `http.Client` is represented by its
one configured field, the `Timeout` (in nanoseconds, Go's `time.Duration`
unit). -/
structure Client where
  timeoutNs : Nat
  baseURL : List Nat
  apiKey : List Nat
deriving DecidableEq

/-- The fixed `baseURL` constant of the package. -/
def baseURL : List Nat := bytesOf "https://db.satnogs.org/api"

/-- Go's `NewClient`: an `http.Client` with a 10-second timeout, the fixed
base URL, and the caller's API key. -/
def NewClient (apiKey : List Nat) : Client :=
  { timeoutNs := 10 * 1000000000, baseURL := baseURL, apiKey := apiKey }

/-- Go's `Telemetry` struct.  `time.Time` is represented by its RFC 3339
text; all other string fields are byte strings and the integer fields are
`Int`. -/
structure Telemetry where
  SatID : List Nat
  NoradCatID : Int
  Transmitter : List Nat
  AppSource : List Nat
  Decoded : List Nat
  Frame : List Nat
  Observer : List Nat
  Timestamp : List Nat
  Version : List Nat
  ObservationID : Int
  StationID : Int
deriving DecidableEq

/-- Go's `TelemetryResponse` struct: one page of results with the
server-supplied `next`/`prev` links (empty string = no such page). -/
structure TelemetryResponse where
  Next : List Nat
  Prev : List Nat
  Results : List Telemetry
deriving DecidableEq

/-- The outgoing `http.Request` as the client builds it: method, parsed
URL, and the only header the client ever sets, `Authorization`
(`none` = header absent). -/
structure Request where
  method : List Nat
  url : URL
  authorization : Option (List Nat)
deriving DecidableEq

/-- The `http.Response` as the client consumes it: only the body is read. -/
structure Response where
  body : List Nat
deriving DecidableEq

/-- Oracle for everything outside the package: `doReq` abstracts the
network (`http.Transport`), returning the round-trip latency in
nanoseconds together with either a transport error or a raw response
body; `decodeTR` abstracts `encoding/json`'s decoding of a body into a
`TelemetryResponse`. -/
structure HttpEnv where
  doReq : Request → Nat × Except NetworkError (List Nat)
  decodeTR : List Nat → Except DecodeError TelemetryResponse

/-- Model of `http.Client.Do` with the client's configured `Timeout`: a
call whose latency exceeds the timeout aborts with a timeout-flagged
network error; otherwise the transport outcome is returned, Go-style, as
a `(response, error)` pair. -/
def clientDo (c : Client) (env : HttpEnv) (req : Request) :
    Option Response × Option GoError :=
  if c.timeoutNs < (env.doReq req).1 then (none, some timeoutErr)
  else
    match (env.doReq req).2 with
    | .error e => (none, some (GoError.network e))
    | .ok body => (some { body := body }, none)

/-- The byte string `"GET"`. -/
def strGET : List Nat := bytesOf "GET"

/-- The byte string `"Token "`, the authorization scheme the client uses. -/
def strTokenSp : List Nat := bytesOf "Token "

/-- Model of `http.NewRequest("GET", urlStr, nil)`: parse the URL (an
unparsable URL makes `NewRequest` fail) and build a request with no
headers. -/
def NewRequest (method : List Nat) (urlStr : List Nat) : Except GoError Request :=
  match urlParse urlStr with
  | none => .error (GoError.url urlStr)
  | some u => .ok { method := method, url := u, authorization := none }

/-- Go's `if c.apiKey != "" { req.Header.Set("Authorization", "Token "+c.apiKey) }`. -/
def addAuth (c : Client) (req : Request) : Request :=
  if c.apiKey = [] then req
  else { req with authorization := some (strTokenSp ++ c.apiKey) }

/-- The request-construction block Go repeats verbatim in `Get`,
`GetTelemetryResponseNextPage` and `GetTelemetryResponsePrevPage`:
`http.NewRequest("GET", urlStr, nil)` followed by the conditional
`Authorization` header.  Every request any client operation issues is
built by this function. -/
def newAuthedRequest (c : Client) (urlStr : List Nat) : Except GoError Request :=
  match NewRequest strGET urlStr with
  | .error e => .error e
  | .ok req => .ok (addAuth c req)

/-- The URL `Get` builds before issuing the request: parse
`c.baseURL + endpoint`, take its query with `u.Query()`, `Add` each
parameter in order, and store the `Encode`d result back in `u.RawQuery`. -/
def buildGetURL (c : Client) (endpoint : List Nat) (params : List urlParam) :
    Except GoError URL :=
  match urlParse (c.baseURL ++ endpoint) with
  | none => .error (GoError.url (c.baseURL ++ endpoint))
  | some u0 =>
    .ok { u0 with RawQuery := encodeValues (addAllParams (URL_Query u0) params) }

/-- Go's `Client.Get`: build the URL, build the authorized request from
`u.String()`, and perform the call; either construction error is returned
as `(nil, err)`. -/
def Get (c : Client) (env : HttpEnv) (endpoint : List Nat) (params : List urlParam) :
    Option Response × Option GoError :=
  match buildGetURL c endpoint params with
  | .error e => (none, some e)
  | .ok u =>
    match newAuthedRequest c (urlString u) with
    | .error e => (none, some e)
    | .ok req => clientDo c env req

/-- The decode block Go repeats after each transport call: propagate a
transport error as `(nil, err)`, otherwise JSON-decode the body into a
`TelemetryResponse`, returning `(nil, DecodeError)` on failure and
`(&tr, nil)` on success.  The `(none, none)` input branch is unreachable
(`Get`/`clientDo` never return it; the Go code dereferences the response
unconditionally there). -/
def decodePage (env : HttpEnv) :
    Option Response × Option GoError → Option TelemetryResponse × Option GoError
  | (_, some e) => (none, some e)
  | (none, none) => (none, none)
  | (some resp, none) =>
    match env.decodeTR resp.body with
    | .error de => (none, some (GoError.decode de))
    | .ok tr => (some tr, none)

/-- The byte string `"/telemetry/"`. -/
def strTelemetryEndpoint : List Nat := bytesOf "/telemetry/"

/-- The query parameters `GetTelemetryResponse` passes to `Get`:
`sat_id=<satelliteID>` and `format=json`. -/
def telemetryParams (satelliteID : List Nat) : List urlParam :=
  [{ Key := bytesOf "sat_id", Value := satelliteID },
   { Key := bytesOf "format", Value := bytesOf "json" }]

/-- Go's `Client.GetTelemetryResponse`: `Get` on `/telemetry/` with the
satellite filter and explicit `format=json`, then the decode block. -/
def GetTelemetryResponse (c : Client) (env : HttpEnv) (satelliteID : List Nat) :
    Option TelemetryResponse × Option GoError :=
  decodePage env (Get c env strTelemetryEndpoint (telemetryParams satelliteID))

/-- Go's `Client.GetTelemetry` (the delegating version): first page via
`GetTelemetryResponse`, returning only its `Results`.  The `(none, none)`
branch is unreachable (`GetTelemetryResponse` never returns it; the Go
code dereferences `resp` unconditionally there). -/
def GetTelemetry (c : Client) (env : HttpEnv) (satelliteID : List Nat) :
    Option (List Telemetry) × Option GoError :=
  match GetTelemetryResponse c env satelliteID with
  | (_, some e) => (none, some e)
  | (some resp, none) => (some resp.Results, none)
  | (none, none) => (none, none)

/-- The walker body shared verbatim by `GetTelemetryResponseNextPage` and
`GetTelemetryResponsePrevPage` once the link is known non-empty: build the
authorized request directly from the link string, perform the call, and
run the decode block. -/
def fetchLink (c : Client) (env : HttpEnv) (link : List Nat) :
    Option TelemetryResponse × Option GoError :=
  match newAuthedRequest c link with
  | .error e => (none, some e)
  | .ok req => decodePage env (clientDo c env req)

/-- Go's `Client.GetTelemetryResponseNextPage`: `(nil, nil)` when the
page's `Next` link is empty, otherwise fetch the link. -/
def GetTelemetryResponseNextPage (c : Client) (env : HttpEnv) (t : TelemetryResponse) :
    Option TelemetryResponse × Option GoError :=
  if t.Next = [] then (none, none) else fetchLink c env t.Next

/-- Go's `Client.GetTelemetryResponsePrevPage`: `(nil, nil)` when the
page's `Prev` link is empty, otherwise fetch the link. -/
def GetTelemetryResponsePrevPage (c : Client) (env : HttpEnv) (t : TelemetryResponse) :
    Option TelemetryResponse × Option GoError :=
  if t.Prev = [] then (none, none) else fetchLink c env t.Prev

namespace ClientGo

/-- Go's `Client.GetTelemetry` as `src/client.go` implements it directly
(without delegating to `GetTelemetryResponse`): `Get` on `/telemetry/`
with the same parameters, decode inline, return the `Results` slice. -/
def GetTelemetry (c : Client) (env : HttpEnv) (satelliteID : List Nat) :
    Option (List Telemetry) × Option GoError :=
  match Get c env strTelemetryEndpoint (telemetryParams satelliteID) with
  | (_, some e) => (none, some e)
  | (some resp, none) =>
    match env.decodeTR resp.body with
    | .error de => (none, some (GoError.decode de))
    | .ok tr => (some tr.Results, none)
  | (none, none) => (none, none)

end ClientGo

/-- Equality of `Except` values is decidable when it is on both sides;
needed to evaluate the oracle outcomes in concrete witnesses. -/
instance {ε α : Type} [DecidableEq ε] [DecidableEq α] : DecidableEq (Except ε α) := fun x y =>
  match x, y with
  | .error a, .error b =>
    if h : a = b then .isTrue (by rw [h]) else .isFalse (by simp [h])
  | .error _, .ok _ => .isFalse (by simp)
  | .ok _, .error _ => .isFalse (by simp)
  | .ok a, .ok b =>
    if h : a = b then .isTrue (by rw [h]) else .isFalse (by simp [h])

/-- An environment whose transport always answers instantly with an empty
body and whose decoder always fails. -/
def envDecodeFail : HttpEnv :=
  { doReq := fun _ => (0, Except.ok []),
    decodeTR := fun _ => Except.error { msg := [] } }

/-- An environment whose transport always answers instantly with an empty
body and whose decoder always returns the empty page. -/
def envDecodeOk : HttpEnv :=
  { doReq := fun _ => (0, Except.ok []),
    decodeTR := fun _ => Except.ok { Next := [], Prev := [], Results := [] } }

/-- An environment whose transport always takes just over ten seconds. -/
def envSlow : HttpEnv :=
  { doReq := fun _ => (10000000001, Except.ok []),
    decodeTR := fun _ => Except.error { msg := [] } }

/-- Model fact: `http.Client.Do` returns either `(nil, err)` or `(resp, nil)`; never
`(nil, nil)` and never both. -/
theorem clientDo_shape (c : Client) (env : HttpEnv) (req : Request) :
    (∃ e, clientDo c env req = (none, some e)) ∨
    ∃ r, clientDo c env req = (some r, none) := by
  unfold clientDo
  by_cases h : c.timeoutNs < (env.doReq req).1
  · exact Or.inl ⟨timeoutErr, by simp [h]⟩
  · cases hr : (env.doReq req).2 with
    | error e => exact Or.inl ⟨GoError.network e, by simp [h, hr]⟩
    | ok body => exact Or.inr ⟨{ body := body }, by simp [h, hr]⟩

/-- The function `Get` inherits the `(nil, err)`-or-`(resp, nil)` shape: its own early
returns pair `nil` with a non-`nil` error. -/
theorem Get_shape (c : Client) (env : HttpEnv) (endpoint : List Nat) (params : List urlParam) :
    (∃ e, Get c env endpoint params = (none, some e)) ∨
    ∃ r, Get c env endpoint params = (some r, none) := by
  unfold Get
  split
  · exact Or.inl ⟨_, rfl⟩
  · split
    · exact Or.inl ⟨_, rfl⟩
    · exact clientDo_shape c env _

/-- The decode block preserves the `(nil, err)`-or-`(value, nil)` shape. -/
theorem decodePage_shape (env : HttpEnv) (p : Option Response × Option GoError)
    (h : (∃ e, p = (none, some e)) ∨ ∃ r, p = (some r, none)) :
    (∃ e, decodePage env p = (none, some e)) ∨
    ∃ tr, decodePage env p = (some tr, none) := by
  rcases h with ⟨e, rfl⟩ | ⟨r, rfl⟩
  · exact Or.inl ⟨e, rfl⟩
  · unfold decodePage
    cases hd : env.decodeTR r.body with
    | error de => exact Or.inl ⟨GoError.decode de, by simp [hd]⟩
    | ok tr => exact Or.inr ⟨tr, by simp [hd]⟩

/-- The fetch `GetTelemetryResponse` returns either `(nil, err)` or `(page, nil)`. -/
theorem getTelemetryResponse_shape (c : Client) (env : HttpEnv) (s : List Nat) :
    (∃ e, GetTelemetryResponse c env s = (none, some e)) ∨
    ∃ tr, GetTelemetryResponse c env s = (some tr, none) :=
  decodePage_shape env _ (Get_shape c env strTelemetryEndpoint (telemetryParams s))

/-- A walker fetch of a non-empty link never produces the `(nil, nil)`
terminal shape. -/
theorem fetchLink_shape (c : Client) (env : HttpEnv) (link : List Nat) :
    (∃ e, fetchLink c env link = (none, some e)) ∨
    ∃ tr, fetchLink c env link = (some tr, none) := by
  unfold fetchLink
  cases hn : newAuthedRequest c link with
  | error e => exact Or.inl ⟨e, by simp⟩
  | ok req => exact decodePage_shape env _ (clientDo_shape c env req)

/-- C1: a pagination walker returns `(nil, nil)` exactly when the
corresponding link field of the supplied page is the empty string.  The
empty link is the sole terminal condition: whatever the server does
(any `env`), a walker on a page with a non-empty link — in particular one
with an empty `results` array — never returns `(nil, nil)`. -/
theorem walker_terminal_iff_empty_link (c : Client) (env : HttpEnv) (t : TelemetryResponse) :
    (GetTelemetryResponseNextPage c env t = (none, none) ↔ t.Next = []) ∧
    (GetTelemetryResponsePrevPage c env t = (none, none) ↔ t.Prev = []) := by
  have hfetch : ∀ link, fetchLink c env link ≠ (none, none) := by
    intro link h
    rcases fetchLink_shape c env link with ⟨e, he⟩ | ⟨tr, htr⟩
    · rw [h] at he
      simp at he
    · rw [h] at htr
      simp at htr
  constructor
  · constructor
    · intro h
      by_cases hn : t.Next = []
      · exact hn
      · exact absurd (by simpa [GetTelemetryResponseNextPage, hn] using h) (hfetch t.Next)
    · intro hn
      simp [GetTelemetryResponseNextPage, hn]
  · constructor
    · intro h
      by_cases hp : t.Prev = []
      · exact hp
      · exact absurd (by simpa [GetTelemetryResponsePrevPage, hp] using h) (hfetch t.Prev)
    · intro hp
      simp [GetTelemetryResponsePrevPage, hp]

/-- C10: `GetTelemetryResponse` never returns `(nil, nil)` (nor a page
together with an error): its page is non-`nil` exactly when its error is
`nil`, for every client, environment and satellite identifier. -/
theorem page_nonnil_iff_no_error (c : Client) (env : HttpEnv) (s : List Nat) :
    (GetTelemetryResponse c env s).1 ≠ none ↔ (GetTelemetryResponse c env s).2 = none := by
  rcases getTelemetryResponse_shape c env s with ⟨e, he⟩ | ⟨tr, htr⟩
  · rw [he]
    simp
  · rw [htr]
    simp

/-- C8: the delegating `GetTelemetry` of `src/unnamed/part_000` and the
direct implementation of `src/client.go` agree on every input and every
server behaviour; `GetTelemetry` errors exactly when `GetTelemetryResponse`
does, and on success returns exactly the first page's `Results` array. -/
theorem getTelemetry_refines_full_fetch (c : Client) (env : HttpEnv) (s : List Nat) :
    GetTelemetry c env s = ClientGo.GetTelemetry c env s ∧
    (GetTelemetry c env s).2 = (GetTelemetryResponse c env s).2 ∧
    ∀ r, GetTelemetryResponse c env s = (some r, none) →
      GetTelemetry c env s = (some r.Results, none) := by
  refine ⟨?_, ?_, ?_⟩
  · unfold GetTelemetry ClientGo.GetTelemetry GetTelemetryResponse
    rcases hg : Get c env strTelemetryEndpoint (telemetryParams s) with ⟨o1, o2⟩
    cases o2 with
    | some e => cases o1 <;> simp [decodePage]
    | none =>
      cases o1 with
      | none => simp [decodePage]
      | some resp =>
        cases hd : env.decodeTR resp.body with
        | error de => simp [decodePage, hd]
        | ok tr => simp [decodePage, hd]
  · rcases getTelemetryResponse_shape c env s with ⟨e, he⟩ | ⟨tr, htr⟩
    · simp [GetTelemetry, he]
    · simp [GetTelemetry, htr]
  · intro r h
    simp [GetTelemetry, h]

/-- C8 witness: with a server returning an instantly decodable empty page,
both implementations agree and return that page's `Results`. -/
theorem getTelemetry_refines_full_fetch_app :
    GetTelemetry (NewClient []) envDecodeOk (bytesOf "43770") =
      ClientGo.GetTelemetry (NewClient []) envDecodeOk (bytesOf "43770") ∧
    GetTelemetryResponse (NewClient []) envDecodeOk (bytesOf "43770") =
      (some { Next := [], Prev := [], Results := [] }, none) ∧
    GetTelemetry (NewClient []) envDecodeOk (bytesOf "43770") = (some [], none) :=
  ⟨(getTelemetry_refines_full_fetch (NewClient []) envDecodeOk (bytesOf "43770")).1,
   by decide,
   (getTelemetry_refines_full_fetch (NewClient []) envDecodeOk (bytesOf "43770")).2.2
     { Next := [], Prev := [], Results := [] } (by decide)⟩

/-- C9: every client built by `NewClient` carries the fixed ten-second
(`10 * 10^9` nanoseconds) timeout — the constructor offers no way to vary
it — and a call whose transport latency exceeds it aborts with the
timeout-flagged network error instead of the transport's answer. -/
theorem fixed_ten_second_timeout (k : List Nat) (env : HttpEnv) (req : Request)
    (h : 10 * 1000000000 < (env.doReq req).1) :
    (NewClient k).timeoutNs = 10 * 1000000000 ∧
    (∀ j, (NewClient j).timeoutNs = (NewClient k).timeoutNs) ∧
    clientDo (NewClient k) env req = (none, some timeoutErr) := by
  refine ⟨rfl, fun j => rfl, ?_⟩
  unfold clientDo
  have h10 : (NewClient k).timeoutNs < (env.doReq req).1 := h
  simp [h10]

/-- C9 witness: a transport taking `10^10 + 1` ns makes the call return
the timeout error. -/
theorem fixed_ten_second_timeout_app :
    10 * 1000000000 <
      (envSlow.doReq { method := strGET,
                       url := { pre := [], forceQuery := false, RawQuery := [], fragment := none },
                       authorization := none }).1 ∧
    clientDo (NewClient []) envSlow
        { method := strGET,
          url := { pre := [], forceQuery := false, RawQuery := [], fragment := none },
          authorization := none } = (none, some timeoutErr) :=
  ⟨by decide,
   (fixed_ten_second_timeout [] envSlow
     { method := strGET,
       url := { pre := [], forceQuery := false, RawQuery := [], fragment := none },
       authorization := none } (by decide)).2.2⟩

/-- C2: every request the client issues is built by `newAuthedRequest`
(`Get` and both walkers call it; `GetTelemetry`/`GetTelemetryResponse` go
through `Get`).  Such a request carries no `Authorization` header when the
API key is empty, and exactly the header `Token <key>` when it is not; its
method is always `GET`. -/
theorem outgoing_request_auth_header (c : Client) (urlStr : List Nat) (req : Request)
    (h : newAuthedRequest c urlStr = .ok req) :
    (c.apiKey = [] → req.authorization = none) ∧
    (c.apiKey ≠ [] → req.authorization = some (strTokenSp ++ c.apiKey)) ∧
    req.method = strGET := by
  unfold newAuthedRequest NewRequest at h
  cases hp : urlParse urlStr with
  | none =>
    rw [hp] at h
    simp at h
  | some u =>
    rw [hp] at h
    simp only [Except.ok.injEq] at h
    subst h
    unfold addAuth
    by_cases hk : c.apiKey = []
    · simp [hk]
    · simp [hk]

/-- C2 witness: with the key `"k"` the one header is exactly `Token k`. -/
theorem outgoing_request_auth_header_app :
    newAuthedRequest (NewClient (bytesOf "k")) (bytesOf "https://db.satnogs.org/api/x") =
      .ok { method := strGET,
            url := { pre := bytesOf "https://db.satnogs.org/api/x", forceQuery := false,
                     RawQuery := [], fragment := none },
            authorization := some (strTokenSp ++ bytesOf "k") } ∧
    (NewClient (bytesOf "k")).apiKey ≠ [] ∧
    Request.authorization
        { method := strGET,
          url := { pre := bytesOf "https://db.satnogs.org/api/x", forceQuery := false,
                   RawQuery := [], fragment := none },
          authorization := some (strTokenSp ++ bytesOf "k") } =
      some (strTokenSp ++ (NewClient (bytesOf "k")).apiKey) :=
  ⟨by decide, by decide,
   (outgoing_request_auth_header (NewClient (bytesOf "k"))
     (bytesOf "https://db.satnogs.org/api/x") _ (by decide)).2.1 (by decide)⟩

/-- Cutting at a separator loses nothing: the original string is the part
before, then the separator and the part after when the separator occurred. -/
theorem cutAt_join (sep : Nat) (s : List Nat) :
    s = (cutAt sep s).1 ++
      (match (cutAt sep s).2 with
       | some y => sep :: y
       | none => []) := by
  induction s with
  | nil => rfl
  | cons b t ih =>
    by_cases hb : b = sep
    · subst hb
      simp [cutAt]
    · simp only [cutAt, if_neg hb]
      simpa using ih

/-- A string without the separator is cut into itself and no remainder. -/
theorem cutAt_none_of_not_mem (sep : Nat) (s : List Nat) (h : sep ∉ s) :
    cutAt sep s = (s, none) := by
  induction s with
  | nil => rfl
  | cons b t ih =>
    have hb : b ≠ sep := fun he => h (he ▸ List.mem_cons_self b t)
    have ht : sep ∉ t := fun hm => h (List.mem_cons_of_mem b hm)
    simp [cutAt, hb, ih ht]

/-- The part before the cut is made of bytes of the original string. -/
theorem cutAt_fst_subset (sep : Nat) (s : List Nat) :
    ∀ x ∈ (cutAt sep s).1, x ∈ s := by
  induction s with
  | nil => simp [cutAt]
  | cons b t ih =>
    by_cases hb : b = sep
    · subst hb
      simp [cutAt]
    · simp only [cutAt, if_neg hb]
      intro x hx
      rcases List.mem_cons.mp hx with h | h
      · exact h ▸ List.mem_cons_self b t
      · exact List.mem_cons_of_mem b (ih x h)

/-- Round trip of the URL model: re-stringifying a successfully parsed URL
recovers the input byte-for-byte. -/
theorem urlString_urlParse (s : List Nat) (u : URL) (h : urlParse s = some u) :
    urlString u = s := by
  unfold urlParse at h
  by_cases hc : s.any (fun b => decide (b < 32) || b == 127) = true
  · simp [hc] at h
  · rw [if_neg hc] at h
    simp only [Option.some.injEq] at h
    subst h
    unfold urlString
    conv_rhs => rw [cutAt_join 35 s, cutAt_join 63 (cutAt 35 s).1]
    cases hq : (cutAt 63 (cutAt 35 s).1).2 with
    | none => simp [hq]
    | some q =>
      by_cases hqe : q = []
      · subst hqe
        simp [hq]
      · simp [hq, hqe]

/-- C3: on a page with a non-empty link, the walker issues a GET whose
request is built from the link string itself — the target re-stringifies
to exactly the link, byte-for-byte, query parameters included — and the
walker's result does not depend on the client's base URL at all (no
re-derivation from base URL or endpoint). -/
theorem walker_follows_link_verbatim (c : Client) (env : HttpEnv) (t : TelemetryResponse)
    (u : URL) :
    (t.Next ≠ [] → urlParse t.Next = some u →
      urlString u = t.Next ∧
      GetTelemetryResponseNextPage c env t =
        decodePage env
          (clientDo c env (addAuth c { method := strGET, url := u, authorization := none })) ∧
      ∀ b, GetTelemetryResponseNextPage { c with baseURL := b } env t =
            GetTelemetryResponseNextPage c env t) ∧
    (t.Prev ≠ [] → urlParse t.Prev = some u →
      urlString u = t.Prev ∧
      GetTelemetryResponsePrevPage c env t =
        decodePage env
          (clientDo c env (addAuth c { method := strGET, url := u, authorization := none })) ∧
      ∀ b, GetTelemetryResponsePrevPage { c with baseURL := b } env t =
            GetTelemetryResponsePrevPage c env t) := by
  constructor
  · intro hn hp
    refine ⟨urlString_urlParse _ _ hp, ?_, fun b => rfl⟩
    simp [GetTelemetryResponseNextPage, hn, fetchLink, newAuthedRequest, NewRequest, hp]
  · intro hn hp
    refine ⟨urlString_urlParse _ _ hp, ?_, fun b => rfl⟩
    simp [GetTelemetryResponsePrevPage, hn, fetchLink, newAuthedRequest, NewRequest, hp]

/-- C3 witness: a concrete page whose links are a server URL with an
offset query; the walker's parsed target re-stringifies to that URL. -/
theorem walker_follows_link_verbatim_app :
    TelemetryResponse.Next
        { Next := bytesOf "https://db.satnogs.org/api/telemetry/?sat_id=X&page=2",
          Prev := bytesOf "https://db.satnogs.org/api/telemetry/?sat_id=X&page=2",
          Results := [] } ≠ [] ∧
    urlParse (bytesOf "https://db.satnogs.org/api/telemetry/?sat_id=X&page=2") =
      some { pre := bytesOf "https://db.satnogs.org/api/telemetry/", forceQuery := false,
             RawQuery := bytesOf "sat_id=X&page=2", fragment := none } ∧
    urlString { pre := bytesOf "https://db.satnogs.org/api/telemetry/", forceQuery := false,
                RawQuery := bytesOf "sat_id=X&page=2", fragment := none } =
      bytesOf "https://db.satnogs.org/api/telemetry/?sat_id=X&page=2" :=
  ⟨by decide, by decide,
   ((walker_follows_link_verbatim (NewClient []) envDecodeOk
       { Next := bytesOf "https://db.satnogs.org/api/telemetry/?sat_id=X&page=2",
         Prev := bytesOf "https://db.satnogs.org/api/telemetry/?sat_id=X&page=2",
         Results := [] }
       { pre := bytesOf "https://db.satnogs.org/api/telemetry/", forceQuery := false,
         RawQuery := bytesOf "sat_id=X&page=2", fragment := none }).1
     (by decide) (by decide)).1⟩

/-- C4: whenever the transport succeeded but the body fails to decode, the
operation — `GetTelemetryResponse`, `GetTelemetry`, or either pagination
walker on a non-empty link — returns `(nil, DecodeError)`: the error is a
decode error and no page (nor any incomplete result) is returned. -/
theorem decode_failure_signals_decode_error (c : Client) (env : HttpEnv) (s : List Nat)
    (resp : Response) (de : DecodeError) (t : TelemetryResponse) (req : Request)
    (hdec : env.decodeTR resp.body = .error de) :
    (Get c env strTelemetryEndpoint (telemetryParams s) = (some resp, none) →
      GetTelemetryResponse c env s = (none, some (GoError.decode de)) ∧
      GetTelemetry c env s = (none, some (GoError.decode de))) ∧
    (t.Next ≠ [] → newAuthedRequest c t.Next = .ok req →
      clientDo c env req = (some resp, none) →
      GetTelemetryResponseNextPage c env t = (none, some (GoError.decode de))) ∧
    (t.Prev ≠ [] → newAuthedRequest c t.Prev = .ok req →
      clientDo c env req = (some resp, none) →
      GetTelemetryResponsePrevPage c env t = (none, some (GoError.decode de))) := by
  refine ⟨?_, ?_, ?_⟩
  · intro hg
    have h1 : GetTelemetryResponse c env s = (none, some (GoError.decode de)) := by
      unfold GetTelemetryResponse
      rw [hg]
      simp [decodePage, hdec]
    exact ⟨h1, by simp [GetTelemetry, h1]⟩
  · intro hne hreq hdo
    simp [GetTelemetryResponseNextPage, hne, fetchLink, hreq, hdo, decodePage, hdec]
  · intro hne hreq hdo
    simp [GetTelemetryResponsePrevPage, hne, fetchLink, hreq, hdo, decodePage, hdec]

/-- C4 witness: a server whose bodies never decode makes
`GetTelemetryResponse` return the decode error and no page. -/
theorem decode_failure_signals_decode_error_app :
    envDecodeFail.decodeTR (Response.body { body := [] }) = .error { msg := [] } ∧
    Get (NewClient []) envDecodeFail strTelemetryEndpoint (telemetryParams (bytesOf "43770")) =
      (some { body := [] }, none) ∧
    GetTelemetryResponse (NewClient []) envDecodeFail (bytesOf "43770") =
      (none, some (GoError.decode { msg := [] })) :=
  ⟨by decide, by decide,
   ((decode_failure_signals_decode_error (NewClient []) envDecodeFail (bytesOf "43770")
       { body := [] } { msg := [] } { Next := [], Prev := [], Results := [] }
       { method := strGET,
         url := { pre := [], forceQuery := false, RawQuery := [], fragment := none },
         authorization := none }
       (by decide)).1 (by decide)).1⟩

/-- Hex digits encode and decode: `hexVal` inverts `hexUpper` below 16. -/
theorem hexVal_hexUpper : ∀ n, n < 16 → hexVal (hexUpper n) = some n := by decide

/-- Upper-case hex digit bytes are never the query metacharacters
`&` `;` `=`. -/
theorem hexUpper_safe : ∀ n, n < 16 → hexUpper n ≠ 38 ∧ hexUpper n ≠ 59 ∧ hexUpper n ≠ 61 := by
  decide

/-- An unreserved query byte is none of the bytes the unescaper or the
query splitter treat specially. -/
theorem unreserved_ne (b : Nat) (h : isUnreservedQuery b = true) :
    b ≠ 37 ∧ b ≠ 43 ∧ b ≠ 32 ∧ b ≠ 38 ∧ b ≠ 59 ∧ b ≠ 61 := by
  refine ⟨?_, ?_, ?_, ?_, ?_, ?_⟩ <;> (rintro rfl; exact absurd h (by decide))

/-- Unescaping undoes one escaped byte at the head of any string. -/
theorem queryUnescape_escByte (b : Nat) (hb : b < 256) (r : List Nat) :
    queryUnescape (queryEscapeByte b ++ r) = (queryUnescape r).map (fun l => b :: l) := by
  unfold queryEscapeByte
  by_cases hu : isUnreservedQuery b = true
  · rw [if_pos hu]
    obtain ⟨h37, h43, -, -, -, -⟩ := unreserved_ne b hu
    show queryUnescape (b :: r) = _
    rw [queryUnescape.eq_def]
    simp [h37, h43]
  · rw [if_neg hu]
    by_cases h32 : b = 32
    · subst h32
      rw [if_pos rfl]
      show queryUnescape (43 :: r) = _
      rw [queryUnescape.eq_def]
      simp
    · rw [if_neg h32]
      show queryUnescape (37 :: hexUpper (b / 16) :: hexUpper (b % 16) :: r) = _
      rw [queryUnescape.eq_def]
      simp only [if_pos rfl, hexVal_hexUpper (b / 16) (by omega),
        hexVal_hexUpper (b % 16) (by omega), Nat.div_add_mod]
      simp [Nat.div_add_mod]

/-- Round trip of Go's query escaping: `QueryUnescape (QueryEscape s) = s`
for every byte string `s`. -/
theorem queryUnescape_queryEscape (s : List Nat) (hs : bytesOK s) :
    queryUnescape (queryEscape s) = some s := by
  induction s with
  | nil => rfl
  | cons b t ih =>
    have hb : b < 256 := hs b (List.mem_cons_self b t)
    have ht : bytesOK t := fun x hx => hs x (List.mem_cons_of_mem b hx)
    show queryUnescape (queryEscapeByte b ++ queryEscape t) = some (b :: t)
    rw [queryUnescape_escByte b hb, ih ht]
    rfl

/-- One escaped byte never contains the query metacharacters `&` `;` `=`. -/
theorem queryEscapeByte_safe (b : Nat) (hb : b < 256) :
    ∀ x ∈ queryEscapeByte b, x ≠ 38 ∧ x ≠ 59 ∧ x ≠ 61 := by
  unfold queryEscapeByte
  by_cases hu : isUnreservedQuery b = true
  · rw [if_pos hu]
    intro x hx
    have hxb : x = b := by simpa using hx
    subst hxb
    obtain ⟨-, -, -, h38, h59, h61⟩ := unreserved_ne x hu
    exact ⟨h38, h59, h61⟩
  · rw [if_neg hu]
    by_cases h32 : b = 32
    · rw [if_pos h32]
      intro x hx
      have hx43 : x = 43 := by simpa using hx
      subst hx43
      exact ⟨by decide, by decide, by decide⟩
    · rw [if_neg h32]
      intro x hx
      rcases (by simpa using hx : x = 37 ∨ x = hexUpper (b / 16) ∨ x = hexUpper (b % 16)) with
        rfl | rfl | rfl
      · exact ⟨by decide, by decide, by decide⟩
      · exact hexUpper_safe (b / 16) (by omega)
      · exact hexUpper_safe (b % 16) (by omega)

/-- An escaped byte string never contains the metacharacters `&` `;` `=`. -/
theorem queryEscape_safe (s : List Nat) (hs : bytesOK s) :
    ∀ x ∈ queryEscape s, x ≠ 38 ∧ x ≠ 59 ∧ x ≠ 61 := by
  intro x hx
  unfold queryEscape at hx
  rw [List.mem_flatten] at hx
  obtain ⟨l, hl, hxl⟩ := hx
  rw [List.mem_map] at hl
  obtain ⟨b, hb, rfl⟩ := hl
  exact queryEscapeByte_safe b (hs b hb) x hxl

/-- Bytewise comparison is irreflexive. -/
theorem ltBytes_irrefl : ∀ a, ltBytes a a = false
  | [] => rfl
  | x :: s => by simp [ltBytes, Nat.lt_irrefl, ltBytes_irrefl s]

/-- Head/tail characterisation of the bytewise comparison. -/
theorem ltBytes_cons_iff (x y : Nat) (s t : List Nat) :
    ltBytes (x :: s) (y :: t) = true ↔ x < y ∨ (x = y ∧ ltBytes s t = true) := by
  show (if x < y then true else if y < x then false else ltBytes s t) = true ↔ _
  split_ifs with h1 h2
  · simp [h1]
  · simp only [Bool.false_eq_true, false_iff]
    rintro (h | ⟨rfl, h⟩) <;> omega
  · have hxy : x = y := by omega
    subst hxy
    simp [Nat.lt_irrefl]

/-- Bytewise comparison is asymmetric. -/
theorem ltBytes_asymm : ∀ a b, ltBytes a b = true → ltBytes b a = false
  | [], [] => by simp [ltBytes]
  | [], _ :: _ => by simp [ltBytes]
  | _ :: _, [] => by simp [ltBytes]
  | x :: s, y :: t => by
    intro h
    rw [ltBytes_cons_iff] at h
    rcases h with h1 | ⟨rfl, h1⟩
    · have h2 : ¬ y < x := by omega
      simp [ltBytes, h1, h2]
    · simp [ltBytes, Nat.lt_irrefl, ltBytes_asymm s t h1]

/-- Bytewise comparison is transitive. -/
theorem ltBytes_trans : ∀ a b c, ltBytes a b = true → ltBytes b c = true → ltBytes a c = true := by
  intro a
  induction a with
  | nil =>
    intro b c hab hbc
    cases b with
    | nil => simp [ltBytes] at hab
    | cons y t =>
      cases c with
      | nil => simp [ltBytes] at hbc
      | cons z u => simp [ltBytes]
  | cons x s ih =>
    intro b c hab hbc
    cases b with
    | nil => simp [ltBytes] at hab
    | cons y t =>
      cases c with
      | nil => simp [ltBytes] at hbc
      | cons z u =>
        rw [ltBytes_cons_iff] at hab hbc ⊢
        rcases hab with h1 | ⟨rfl, h1⟩
        · rcases hbc with h2 | ⟨rfl, h2⟩
          · exact Or.inl (by omega)
          · exact Or.inl h1
        · rcases hbc with h2 | ⟨rfl, h2⟩
          · exact Or.inl h2
          · exact Or.inr ⟨rfl, ih t u h1 h2⟩

/-- Bytewise comparison is total on distinct strings. -/
theorem ltBytes_total : ∀ a b, a ≠ b → ltBytes a b = true ∨ ltBytes b a = true
  | [], [] => fun h => absurd rfl h
  | [], _ :: _ => fun _ => Or.inl (by simp [ltBytes])
  | _ :: _, [] => fun _ => Or.inr (by simp [ltBytes])
  | x :: s, y :: t => fun h => by
    by_cases h1 : x < y
    · exact Or.inl (by rw [ltBytes_cons_iff]; exact Or.inl h1)
    · by_cases h2 : y < x
      · exact Or.inr (by rw [ltBytes_cons_iff]; exact Or.inl h2)
      · have hxy : x = y := by omega
        subst hxy
        have hst : s ≠ t := fun he => h (by rw [he])
        rcases ltBytes_total s t hst with h3 | h3
        · exact Or.inl (by rw [ltBytes_cons_iff]; exact Or.inr ⟨rfl, h3⟩)
        · exact Or.inr (by rw [ltBytes_cons_iff]; exact Or.inr ⟨rfl, h3⟩)

/-- A string without `&` is one whole segment (or none when empty). -/
theorem splitAmp_no_amp (s : List Nat) (h : 38 ∉ s) :
    splitAmp s = if s = [] then [] else [s] := by
  induction s with
  | nil => rfl
  | cons b t ih =>
    have hb : b ≠ 38 := fun he => h (he ▸ List.mem_cons_self b t)
    have ht : 38 ∉ t := fun hm => h (List.mem_cons_of_mem b hm)
    by_cases hte : t = []
    · subst hte
      simp [splitAmp, hb]
    · simp [splitAmp, hb, ih ht, hte]

/-- Splitting after one `&`-joined segment peels it off. -/
theorem splitAmp_append (s r : List Nat) (h38 : 38 ∉ s) (hne : s ≠ []) :
    splitAmp (s ++ 38 :: r) = s :: splitAmp r := by
  induction s with
  | nil => exact absurd rfl hne
  | cons b t ih =>
    have hb : b ≠ 38 := fun he => h38 (he ▸ List.mem_cons_self b t)
    have ht : 38 ∉ t := fun hm => h38 (List.mem_cons_of_mem b hm)
    by_cases hte : t = []
    · subst hte
      have h1 : splitAmp (38 :: r) = [] :: splitAmp r := by simp [splitAmp]
      simp [splitAmp, hb, h1]
    · have h1 := ih ht hte
      simp only [List.cons_append, splitAmp, if_neg hb]
      rw [List.append_eq, h1]

/-- Splitting inverts joining, for non-empty `&`-free segments. -/
theorem splitAmp_joinAmp : ∀ (segs : List (List Nat)),
    (∀ s ∈ segs, 38 ∉ s ∧ s ≠ []) → splitAmp (joinAmp segs) = segs
  | [], _ => rfl
  | [s], h => by
    obtain ⟨h38, hne⟩ := h s (by simp)
    show splitAmp s = [s]
    simp [splitAmp_no_amp s h38, hne]
  | s :: s2 :: ss, h => by
    obtain ⟨h38, hne⟩ := h s (by simp)
    have hrest := splitAmp_joinAmp (s2 :: ss) (fun x hx => h x (List.mem_cons_of_mem s hx))
    show splitAmp (s ++ 38 :: joinAmp (s2 :: ss)) = s :: s2 :: ss
    rw [splitAmp_append s _ h38 hne, hrest]

/-- Cutting at `=` after an `=`-free part recovers both parts. -/
theorem cutEq_append (a b : List Nat) (h : 61 ∉ a) : cutEq (a ++ 61 :: b) = (a, b) := by
  induction a with
  | nil => simp [cutEq]
  | cons x t ih =>
    have hx : x ≠ 61 := fun he => h (he ▸ List.mem_cons_self x t)
    have ht : 61 ∉ t := fun hm => h (List.mem_cons_of_mem x hm)
    simp [cutEq, hx, ih ht]

/-- Each pair of `pairsOf` really comes from an entry of the map. -/
theorem pairsOf_mem (vs : Values) (p : List Nat × List Nat) (h : p ∈ pairsOf vs) :
    ∃ kv ∈ vs, p.1 = kv.1 ∧ p.2 ∈ kv.2 := by
  unfold pairsOf at h
  rw [List.mem_flatten] at h
  obtain ⟨l, hl, hpl⟩ := h
  rw [List.mem_map] at hl
  obtain ⟨kv, hkv, rfl⟩ := hl
  rw [List.mem_map] at hpl
  obtain ⟨v, hv, rfl⟩ := hpl
  exact ⟨kv, hkv, rfl, hv⟩

/-- The `ParseQuery` loop body undoes one encoded `key=value` segment:
it adds exactly that pair and leaves the error flag alone. -/
theorem parseSeg_encSeg (m : Values) (er : Bool) (p : List Nat × List Nat)
    (hk : bytesOK p.1) (hv : bytesOK p.2) :
    parseSeg (m, er) (encSeg p) = (valuesAdd m p.1 p.2, er) := by
  obtain ⟨k, v⟩ := p
  have h59 : (59 : Nat) ∉ encSeg (k, v) := by
    intro hx
    rcases List.mem_append.mp hx with h1 | h1
    · exact (queryEscape_safe k hk 59 h1).2.1 rfl
    · rcases List.mem_cons.mp h1 with h2 | h2
      · omega
      · exact (queryEscape_safe v hv 59 h2).2.1 rfl
  have hne : encSeg (k, v) ≠ [] := by simp [encSeg]
  have hcut : cutEq (encSeg (k, v)) = (queryEscape k, queryEscape v) :=
    cutEq_append _ _ (fun hm => (queryEscape_safe k hk 61 hm).2.2 rfl)
  unfold parseSeg
  rw [if_neg h59, if_neg hne, hcut]
  rw [queryUnescape_queryEscape k hk, queryUnescape_queryEscape v hv]

/-- Folding the loop body over encoded segments re-adds all the pairs. -/
theorem foldl_parseSeg_encSegs : ∀ (ps : List (List Nat × List Nat)) (m : Values),
    (∀ p ∈ ps, bytesOK p.1 ∧ bytesOK p.2) →
    (ps.map encSeg).foldl parseSeg (m, false) = (addAll m ps, false)
  | [], _, _ => rfl
  | p :: ps, m, h => by
    obtain ⟨hk, hv⟩ := h p (by simp)
    show (ps.map encSeg).foldl parseSeg (parseSeg (m, false) (encSeg p)) = _
    rw [parseSeg_encSeg m false p hk hv]
    exact foldl_parseSeg_encSegs ps (valuesAdd m p.1 p.2)
      (fun q hq => h q (List.mem_cons_of_mem p hq))

/-- Parsing inverts `Values.Encode` up to re-adding the pairs, with a
clean error flag, whenever the map holds actual byte strings. -/
theorem parseQuery_encodeValues (vs : Values)
    (hb : ∀ kv ∈ vs, bytesOK kv.1 ∧ ∀ w ∈ kv.2, bytesOK w) :
    parseQuery (encodeValues vs) = (addAll [] (pairsOf vs), false) := by
  have hpairs : ∀ p ∈ pairsOf vs, bytesOK p.1 ∧ bytesOK p.2 := by
    intro p hp
    obtain ⟨kv, hkv, h1, h2⟩ := pairsOf_mem vs p hp
    exact ⟨h1 ▸ (hb kv hkv).1, (hb kv hkv).2 p.2 h2⟩
  unfold parseQuery encodeValues
  rw [splitAmp_joinAmp]
  · exact foldl_parseSeg_encSegs (pairsOf vs) [] hpairs
  · intro s hs
    rw [List.mem_map] at hs
    obtain ⟨p, hp, rfl⟩ := hs
    obtain ⟨hk, hv⟩ := hpairs p hp
    constructor
    · intro hx
      rcases List.mem_append.mp hx with h1 | h1
      · exact (queryEscape_safe p.1 hk 38 h1).1 rfl
      · rcases List.mem_cons.mp h1 with h2 | h2
        · omega
        · exact (queryEscape_safe p.2 hv 38 h2).1 rfl
    · simp [encSeg]

/-- Keys after an `Add` are the new key or keys already present. -/
theorem valuesAdd_keys : ∀ (vs : Values) (k v : List Nat) (x : List Nat × List (List Nat)),
    x ∈ valuesAdd vs k v → x.1 = k ∨ ∃ y ∈ vs, x.1 = y.1
  | [], k, v, x => by
    intro hx
    simp only [valuesAdd, List.mem_singleton] at hx
    subst hx
    exact Or.inl rfl
  | (k0, vs0) :: rest, k, v, x => by
    intro hx
    unfold valuesAdd at hx
    by_cases h1 : k = k0
    · rw [if_pos h1] at hx
      rcases List.mem_cons.mp hx with rfl | h2
      · exact Or.inr ⟨(k0, vs0), by simp, rfl⟩
      · exact Or.inr ⟨x, List.mem_cons_of_mem _ h2, rfl⟩
    · rw [if_neg h1] at hx
      by_cases h2 : ltBytes k k0 = true
      · rw [if_pos h2] at hx
        rcases List.mem_cons.mp hx with rfl | h3
        · exact Or.inl rfl
        · exact Or.inr ⟨x, h3, rfl⟩
      · rw [if_neg h2] at hx
        rcases List.mem_cons.mp hx with rfl | h3
        · exact Or.inr ⟨(k0, vs0), by simp, rfl⟩
        · rcases valuesAdd_keys rest k v x h3 with h4 | ⟨y, hy, h4⟩
          · exact Or.inl h4
          · exact Or.inr ⟨y, List.mem_cons_of_mem _ hy, h4⟩

/-- Insertion by `Add` keeps the association list strictly sorted by key. -/
theorem valuesAdd_sorted : ∀ (vs : Values),
    vs.Pairwise (fun a b => ltBytes a.1 b.1 = true) →
    ∀ k v, (valuesAdd vs k v).Pairwise (fun a b => ltBytes a.1 b.1 = true)
  | [], _, k, v => by simp [valuesAdd]
  | (k0, vs0) :: rest, h, k, v => by
    rw [List.pairwise_cons] at h
    obtain ⟨hhead, htail⟩ := h
    unfold valuesAdd
    by_cases h1 : k = k0
    · rw [if_pos h1]
      exact List.Pairwise.cons (fun y hy => hhead y hy) htail
    · rw [if_neg h1]
      by_cases h2 : ltBytes k k0 = true
      · rw [if_pos h2]
        refine List.Pairwise.cons ?_ (List.Pairwise.cons hhead htail)
        intro y hy
        rcases List.mem_cons.mp hy with rfl | hy2
        · exact h2
        · exact ltBytes_trans _ _ _ h2 (hhead y hy2)
      · rw [if_neg h2]
        have hlt : ltBytes k0 k = true := by
          rcases ltBytes_total k k0 h1 with h3 | h3
          · exact absurd h3 h2
          · exact h3
        refine List.Pairwise.cons ?_ (valuesAdd_sorted rest htail k v)
        intro y hy
        rcases valuesAdd_keys rest k v y hy with he | ⟨z, hz, he⟩
        · rw [he]; exact hlt
        · rw [he]; exact hhead z hz

/-- Every entry after an `Add` is an old entry, the fresh singleton entry,
or an old entry with the value appended. -/
theorem valuesAdd_entries : ∀ (vs : Values) (k v : List Nat) (x : List Nat × List (List Nat)),
    x ∈ valuesAdd vs k v →
    x ∈ vs ∨ x = (k, [v]) ∨ ∃ y ∈ vs, x.1 = y.1 ∧ x.2 = y.2 ++ [v]
  | [], k, v, x => by
    intro hx
    simp only [valuesAdd, List.mem_singleton] at hx
    exact Or.inr (Or.inl hx)
  | (k0, vs0) :: rest, k, v, x => by
    intro hx
    unfold valuesAdd at hx
    by_cases h1 : k = k0
    · rw [if_pos h1] at hx
      rcases List.mem_cons.mp hx with rfl | h2
      · exact Or.inr (Or.inr ⟨(k0, vs0), by simp, rfl, rfl⟩)
      · exact Or.inl (List.mem_cons_of_mem _ h2)
    · rw [if_neg h1] at hx
      by_cases h2 : ltBytes k k0 = true
      · rw [if_pos h2] at hx
        rcases List.mem_cons.mp hx with rfl | h3
        · exact Or.inr (Or.inl rfl)
        · exact Or.inl h3
      · rw [if_neg h2] at hx
        rcases List.mem_cons.mp hx with rfl | h3
        · exact Or.inl (by simp)
        · rcases valuesAdd_entries rest k v x h3 with h4 | h4 | ⟨y, hy, h4⟩
          · exact Or.inl (List.mem_cons_of_mem _ h4)
          · exact Or.inr (Or.inl h4)
          · exact Or.inr (Or.inr ⟨y, List.mem_cons_of_mem _ hy, h4⟩)

/-- The well-formedness invariant is empty-map true and `Add`-stable. -/
theorem valuesAdd_WF (vs : Values) (k v : List Nat) (h : ValuesWF vs)
    (hk : bytesOK k) (hv : bytesOK v) : ValuesWF (valuesAdd vs k v) := by
  constructor
  · exact valuesAdd_sorted vs h.1 k v
  · intro kv hkv
    rcases valuesAdd_entries vs k v kv hkv with h1 | h1 | ⟨y, hy, h1, h2⟩
    · exact h.2 kv h1
    · subst h1
      refine ⟨hk, by simp, ?_⟩
      intro w hw
      rcases List.mem_singleton.mp hw with rfl
      exact hv
    · obtain ⟨hy1, hy2, hy3⟩ := h.2 y hy
      refine ⟨h1 ▸ hy1, by rw [h2]; simp, ?_⟩
      intro w hw
      rw [h2] at hw
      rcases List.mem_append.mp hw with hw1 | hw1
      · exact hy3 w hw1
      · rcases List.mem_singleton.mp hw1 with rfl
        exact hv

/-- The query-building loop of `Get` preserves well-formedness. -/
theorem addAllParams_WF : ∀ (ps : List urlParam) (vs : Values), ValuesWF vs →
    (∀ p ∈ ps, bytesOK p.Key ∧ bytesOK p.Value) → ValuesWF (addAllParams vs ps)
  | [], vs, h, _ => h
  | p :: ps, vs, h, hps => by
    show ValuesWF (addAllParams (valuesAdd vs p.Key p.Value) ps)
    exact addAllParams_WF ps _
      (valuesAdd_WF vs _ _ h (hps p (by simp)).1 (hps p (by simp)).2)
      (fun q hq => hps q (List.mem_cons_of_mem p hq))

/-- The empty map is well formed. -/
theorem valuesWF_nil : ValuesWF [] := ⟨List.Pairwise.nil, by simp⟩

/-- Lookup misses every absent key. -/
theorem valuesGet_nil_of_not_mem : ∀ (vs : Values) (q : List Nat),
    (∀ y ∈ vs, q ≠ y.1) → valuesGet vs q = []
  | [], _, _ => rfl
  | (k0, vs0) :: rest, q, h => by
    unfold valuesGet
    rw [if_neg (h (k0, vs0) (by simp))]
    exact valuesGet_nil_of_not_mem rest q (fun y hy => h y (List.mem_cons_of_mem _ hy))

/-- Lookup after `Add` on a sorted map: the added key gains the value at
the end of its slice, every other key is untouched. -/
theorem valuesGet_valuesAdd : ∀ (vs : Values),
    vs.Pairwise (fun a b => ltBytes a.1 b.1 = true) →
    ∀ (k v q : List Nat), valuesGet (valuesAdd vs k v) q =
      if q = k then valuesGet vs k ++ [v] else valuesGet vs q
  | [], _, k, v, q => by
    by_cases h : q = k <;> simp [valuesAdd, valuesGet, h]
  | (k0, vs0) :: rest, hs, k, v, q => by
    rw [List.pairwise_cons] at hs
    obtain ⟨hhead, htail⟩ := hs
    unfold valuesAdd
    by_cases h1 : k = k0
    · subst h1
      rw [if_pos rfl]
      by_cases h2 : q = k
      · subst h2
        simp [valuesGet]
      · simp [valuesGet, h2]
    · rw [if_neg h1]
      by_cases h2 : ltBytes k k0 = true
      · rw [if_pos h2]
        by_cases h3 : q = k
        · subst h3
          have hnil : valuesGet ((k0, vs0) :: rest) q = [] := by
            apply valuesGet_nil_of_not_mem
            intro y hy
            rcases List.mem_cons.mp hy with rfl | hy2
            · exact h1
            · intro he
              have hq := ltBytes_trans _ _ _ h2 (hhead y hy2)
              rw [← he, ltBytes_irrefl] at hq
              exact Bool.noConfusion hq
          rw [hnil]
          simp [valuesGet]
        · simp [valuesGet, h3]
      · rw [if_neg h2]
        by_cases h3 : q = k0
        · subst h3
          have hqk : ¬ (q = k) := fun he => h1 (he ▸ rfl)
          simp [valuesGet, hqk]
        · have IH := valuesGet_valuesAdd rest htail k v q
          show (if q = k0 then vs0 else valuesGet (valuesAdd rest k v) q) =
            if q = k then (if k = k0 then vs0 else valuesGet rest k) ++ [v]
            else if q = k0 then vs0 else valuesGet rest q
          rw [if_neg h3, IH, if_neg h1]
          by_cases h4 : q = k
          · rw [if_pos h4, if_pos h4]
          · rw [if_neg h4, if_neg h4, if_neg h3]

/-- Folding pairs splits along list append. -/
theorem addAll_append (init : Values) (a b : List (List Nat × List Nat)) :
    addAll init (a ++ b) = addAll (addAll init a) b := by
  unfold addAll
  rw [List.foldl_append]

/-- Re-adding one key's values onto its singleton entry appends them all. -/
theorem addAll_single_key : ∀ (ws : List (List Nat)) (k : List Nat) (a : List (List Nat)),
    addAll [(k, a)] (ws.map (fun v => (k, v))) = [(k, a ++ ws)]
  | [], k, a => by simp [addAll]
  | w :: ws, k, a => by
    show addAll (valuesAdd [(k, a)] k w) (ws.map (fun v => (k, v))) = _
    have h1 : valuesAdd [(k, a)] k w = [(k, a ++ [w])] := by simp [valuesAdd]
    rw [h1, addAll_single_key ws k (a ++ [w])]
    simp

/-- Adding pairs whose keys are all larger leaves a smaller head alone. -/
theorem addAll_cons_gt : ∀ (ps : List (List Nat × List Nat)) (k : List Nat)
    (a : List (List Nat)) (w : Values),
    (∀ p ∈ ps, ltBytes k p.1 = true) →
    addAll ((k, a) :: w) ps = (k, a) :: addAll w ps
  | [], _, _, _, _ => rfl
  | p :: ps, k, a, w, h => by
    have hlt := h p (by simp)
    have hne : ¬ (p.1 = k) := by
      intro he
      rw [he, ltBytes_irrefl] at hlt
      exact Bool.noConfusion hlt
    have hfalse : ltBytes p.1 k = false := ltBytes_asymm k p.1 hlt
    have hnlt : ¬ (ltBytes p.1 k = true) := by simp [hfalse]
    show addAll (valuesAdd ((k, a) :: w) p.1 p.2) ps = _
    have h1 : valuesAdd ((k, a) :: w) p.1 p.2 = (k, a) :: valuesAdd w p.1 p.2 := by
      show (if p.1 = k then (k, a ++ [p.2]) :: w
        else if ltBytes p.1 k = true then (p.1, [p.2]) :: (k, a) :: w
        else (k, a) :: valuesAdd w p.1 p.2) = (k, a) :: valuesAdd w p.1 p.2
      rw [if_neg hne, if_neg hnlt]
    rw [h1,
      addAll_cons_gt ps k a (valuesAdd w p.1 p.2) (fun q hq => h q (List.mem_cons_of_mem p hq))]
    rfl

/-- Re-adding the flattened pairs of a sorted map with non-empty slices
rebuilds the map exactly. -/
theorem addAll_pairsOf : ∀ (vs : Values),
    vs.Pairwise (fun a b => ltBytes a.1 b.1 = true) →
    (∀ kv ∈ vs, kv.2 ≠ []) →
    addAll [] (pairsOf vs) = vs
  | [], _, _ => rfl
  | (k, vlist) :: rest, hs, hne => by
    rw [List.pairwise_cons] at hs
    obtain ⟨hhead, htail⟩ := hs
    have hvne := hne (k, vlist) (by simp)
    have hp : pairsOf ((k, vlist) :: rest) = vlist.map (fun v => (k, v)) ++ pairsOf rest := by
      simp [pairsOf]
    rw [hp, addAll_append]
    cases vlist with
    | nil => exact absurd rfl hvne
    | cons w ws =>
      have h1 : addAll [] ((w :: ws).map (fun v => (k, v))) = [(k, w :: ws)] := by
        show addAll (valuesAdd [] k w) (ws.map (fun v => (k, v))) = _
        have h2 : valuesAdd [] k w = [(k, [w])] := rfl
        rw [h2, addAll_single_key ws k [w]]
        rfl
      rw [h1]
      have hgt : ∀ p ∈ pairsOf rest, ltBytes k p.1 = true := by
        intro p hp2
        obtain ⟨kv, hkv, he, -⟩ := pairsOf_mem rest p hp2
        rw [he]
        exact hhead kv hkv
      rw [addAll_cons_gt (pairsOf rest) k (w :: ws) [] hgt,
        addAll_pairsOf rest htail (fun kv hkv => hne kv (List.mem_cons_of_mem _ hkv))]

/-- Lookup in the map the `Get` loop builds: the initial map's values for
the key followed by the parameter list's values for it, in order and with
multiplicity. -/
theorem valuesGet_addAllParams : ∀ (ps : List urlParam) (vs : Values),
    vs.Pairwise (fun a b => ltBytes a.1 b.1 = true) →
    ∀ q, valuesGet (addAllParams vs ps) q = valuesGet vs q ++ valuesOf ps q
  | [], vs, _, q => by simp [addAllParams, valuesOf]
  | p :: ps, vs, hs, q => by
    show valuesGet (addAllParams (valuesAdd vs p.Key p.Value) ps) q = _
    rw [valuesGet_addAllParams ps (valuesAdd vs p.Key p.Value) (valuesAdd_sorted vs hs _ _) q,
      valuesGet_valuesAdd vs hs p.Key p.Value q]
    unfold valuesOf
    rw [List.filter_cons]
    by_cases h1 : q = p.Key
    · rw [if_pos h1, if_pos (by simp only [beq_iff_eq]; exact h1.symm), h1]
      simp [List.append_assoc]
    · rw [if_neg h1, if_neg (by simp only [beq_iff_eq]; exact fun he => h1 he.symm)]

/-- The raw query `Get` builds (base URL and endpoint free of `?`, so no
pre-existing query) parses back, without error, to exactly the map of the
supplied parameters. -/
theorem parseQuery_buildGetURL (c : Client) (endpoint : List Nat) (params : List urlParam)
    (u : URL)
    (hv : ∀ p ∈ params, bytesOK p.Key ∧ bytesOK p.Value)
    (hq : 63 ∉ c.baseURL ++ endpoint)
    (hu : buildGetURL c endpoint params = .ok u) :
    parseQuery u.RawQuery = (addAllParams [] params, false) := by
  unfold buildGetURL at hu
  cases hp : urlParse (c.baseURL ++ endpoint) with
  | none =>
    rw [hp] at hu
    exact Except.noConfusion hu
  | some u0 =>
    rw [hp] at hu
    simp only [Except.ok.injEq] at hu
    subst hu
    have h63 : u0.RawQuery = [] := by
      unfold urlParse at hp
      by_cases hc : ((c.baseURL ++ endpoint).any fun b => decide (b < 32) || b == 127) = true
      · simp [hc] at hp
      · rw [if_neg hc] at hp
        simp only [Option.some.injEq] at hp
        have h1 : 63 ∉ (cutAt 35 (c.baseURL ++ endpoint)).1 := fun hm =>
          hq (cutAt_fst_subset 35 _ 63 hm)
        rw [← hp]
        simp [cutAt_none_of_not_mem 63 _ h1]
    have hquery : URL_Query u0 = [] := by
      rw [URL_Query, h63]
      rfl
    show parseQuery (encodeValues (addAllParams (URL_Query u0) params)) = _
    rw [hquery]
    have hwf : ValuesWF (addAllParams [] params) := addAllParams_WF params [] valuesWF_nil hv
    rw [parseQuery_encodeValues (addAllParams [] params)
      (fun kv hkv => ⟨(hwf.2 kv hkv).1, (hwf.2 kv hkv).2.2⟩)]
    rw [addAll_pairsOf _ hwf.1 (fun kv hkv => (hwf.2 kv hkv).2.1)]

/-- C7: every key/value pair supplied to `Get` appears in the constructed
request URL's query string — for each key, decoding the query yields the
supplied values in order and with multiplicity (duplicate keys are all
included), and nothing else. -/
theorem get_query_includes_all_pairs (c : Client) (endpoint : List Nat)
    (params : List urlParam) (u : URL)
    (hv : ∀ p ∈ params, bytesOK p.Key ∧ bytesOK p.Value)
    (hq : 63 ∉ c.baseURL ++ endpoint)
    (hu : buildGetURL c endpoint params = .ok u) :
    (parseQuery u.RawQuery).2 = false ∧
    ∀ k, valuesGet (parseQuery u.RawQuery).1 k = valuesOf params k := by
  rw [parseQuery_buildGetURL c endpoint params u hv hq hu]
  refine ⟨rfl, ?_⟩
  intro k
  show valuesGet (addAllParams [] params) k = valuesOf params k
  rw [valuesGet_addAllParams params [] List.Pairwise.nil k]
  rfl

/-- C7 witness: a repeated key with a reserved-character value; both
occurrences survive the encode/decode round trip, in order. -/
theorem get_query_includes_all_pairs_app :
    buildGetURL (NewClient []) strTelemetryEndpoint
        [{ Key := bytesOf "a", Value := bytesOf "b&c d#e" },
         { Key := bytesOf "a", Value := bytesOf "x" }] =
      .ok { pre := bytesOf "https://db.satnogs.org/api/telemetry/", forceQuery := false,
            RawQuery := bytesOf "a=b%26c+d%23e&a=x", fragment := none } ∧
    valuesGet (parseQuery (bytesOf "a=b%26c+d%23e&a=x")).1 (bytesOf "a") =
      [bytesOf "b&c d#e", bytesOf "x"] :=
  ⟨by decide,
   (get_query_includes_all_pairs (NewClient []) strTelemetryEndpoint
      [{ Key := bytesOf "a", Value := bytesOf "b&c d#e" },
       { Key := bytesOf "a", Value := bytesOf "x" }]
      { pre := bytesOf "https://db.satnogs.org/api/telemetry/", forceQuery := false,
        RawQuery := bytesOf "a=b%26c+d%23e&a=x", fragment := none }
      (by decide) (by decide) (by decide)).2 (bytesOf "a")⟩

/-- C6: every value supplied to `Get` — reserved URL characters included —
survives the encode/decode round trip: unescaping its escaped form gives
it back exactly, and decoding the constructed URL's query string recovers
it under its key. -/
theorem get_query_value_roundtrip (c : Client) (endpoint : List Nat)
    (params : List urlParam) (u : URL)
    (hv : ∀ p ∈ params, bytesOK p.Key ∧ bytesOK p.Value)
    (hq : 63 ∉ c.baseURL ++ endpoint)
    (hu : buildGetURL c endpoint params = .ok u) :
    ∀ p ∈ params, queryUnescape (queryEscape p.Value) = some p.Value ∧
      p.Value ∈ valuesGet (parseQuery u.RawQuery).1 p.Key := by
  intro p hp
  obtain ⟨hk, hval⟩ := hv p hp
  refine ⟨queryUnescape_queryEscape p.Value hval, ?_⟩
  rw [parseQuery_buildGetURL c endpoint params u hv hq hu]
  show p.Value ∈ valuesGet (addAllParams [] params) p.Key
  rw [valuesGet_addAllParams params [] List.Pairwise.nil p.Key]
  show p.Value ∈ valuesOf params p.Key
  unfold valuesOf
  rw [List.mem_map]
  exact ⟨p, List.mem_filter.mpr ⟨hp, by simp⟩, rfl⟩

/-- C6 witness: the value `b&c d#e` (ampersand, space, hash) encodes to
`b%26c+d%23e` and decodes back exactly, also through the full URL. -/
theorem get_query_value_roundtrip_app :
    buildGetURL (NewClient []) strTelemetryEndpoint
        [{ Key := bytesOf "a", Value := bytesOf "b&c d#e" }] =
      .ok { pre := bytesOf "https://db.satnogs.org/api/telemetry/", forceQuery := false,
            RawQuery := bytesOf "a=b%26c+d%23e", fragment := none } ∧
    queryUnescape (queryEscape (bytesOf "b&c d#e")) = some (bytesOf "b&c d#e") ∧
    bytesOf "b&c d#e" ∈ valuesGet (parseQuery (bytesOf "a=b%26c+d%23e")).1 (bytesOf "a") := by
  refine ⟨by decide, ?_, ?_⟩
  · exact (get_query_value_roundtrip (NewClient []) strTelemetryEndpoint
      [{ Key := bytesOf "a", Value := bytesOf "b&c d#e" }]
      { pre := bytesOf "https://db.satnogs.org/api/telemetry/", forceQuery := false,
        RawQuery := bytesOf "a=b%26c+d%23e", fragment := none }
      (by decide) (by decide) (by decide)
      { Key := bytesOf "a", Value := bytesOf "b&c d#e" } (by simp)).1
  · exact (get_query_value_roundtrip (NewClient []) strTelemetryEndpoint
      [{ Key := bytesOf "a", Value := bytesOf "b&c d#e" }]
      { pre := bytesOf "https://db.satnogs.org/api/telemetry/", forceQuery := false,
        RawQuery := bytesOf "a=b%26c+d%23e", fragment := none }
      (by decide) (by decide) (by decide)
      { Key := bytesOf "a", Value := bytesOf "b&c d#e" } (by simp)).2

/-- C5: `GetTelemetryResponse` (and through it `GetTelemetry`) performs its
GET on the `/telemetry/` endpoint, and the URL it builds always carries
both `sat_id=<satelliteID>` and the explicit `format=json`, whatever the
API key. -/
theorem telemetry_query_contract (k s : List Nat) (env : HttpEnv) (hs : bytesOK s) :
    GetTelemetryResponse (NewClient k) env s =
      decodePage env (Get (NewClient k) env strTelemetryEndpoint (telemetryParams s)) ∧
    ∃ u, buildGetURL (NewClient k) strTelemetryEndpoint (telemetryParams s) = .ok u ∧
      valuesGet (parseQuery u.RawQuery).1 (bytesOf "sat_id") = [s] ∧
      valuesGet (parseQuery u.RawQuery).1 (bytesOf "format") = [bytesOf "json"] := by
  constructor
  · rfl
  · have hv : ∀ p ∈ telemetryParams s, bytesOK p.Key ∧ bytesOK p.Value := by
      intro p hp
      rcases List.mem_cons.mp hp with rfl | hp2
      · exact ⟨show bytesOK (bytesOf "sat_id") by decide, hs⟩
      · rcases List.mem_singleton.mp hp2 with rfl
        exact ⟨show bytesOK (bytesOf "format") by decide,
               show bytesOK (bytesOf "json") by decide⟩
    have hq63 : 63 ∉ (NewClient k).baseURL ++ strTelemetryEndpoint := by
      show 63 ∉ baseURL ++ strTelemetryEndpoint
      decide
    have hbu : buildGetURL (NewClient k) strTelemetryEndpoint (telemetryParams s) =
        .ok { pre := bytesOf "https://db.satnogs.org/api/telemetry/", forceQuery := false,
              RawQuery := encodeValues (addAllParams [] (telemetryParams s)),
              fragment := none } := by
      unfold buildGetURL
      have hp : urlParse ((NewClient k).baseURL ++ strTelemetryEndpoint) =
          some { pre := bytesOf "https://db.satnogs.org/api/telemetry/", forceQuery := false,
                 RawQuery := [], fragment := none } := by
        show urlParse (baseURL ++ strTelemetryEndpoint) = _
        decide
      rw [hp]
      rfl
    refine ⟨_, hbu, ?_, ?_⟩
    all_goals
      rw [parseQuery_buildGetURL (NewClient k) strTelemetryEndpoint (telemetryParams s)
        _ hv hq63 hbu]
    · show valuesGet (addAllParams [] (telemetryParams s)) (bytesOf "sat_id") = [s]
      rw [valuesGet_addAllParams _ [] List.Pairwise.nil]
      show valuesOf (telemetryParams s) (bytesOf "sat_id") = [s]
      have hb1 : (bytesOf "sat_id" == bytesOf "sat_id") = true := by decide
      have hb2 : (bytesOf "format" == bytesOf "sat_id") = false := by decide
      simp [valuesOf, telemetryParams, List.filter_cons, hb1, hb2]
    · show valuesGet (addAllParams [] (telemetryParams s)) (bytesOf "format") = [bytesOf "json"]
      rw [valuesGet_addAllParams _ [] List.Pairwise.nil]
      show valuesOf (telemetryParams s) (bytesOf "format") = [bytesOf "json"]
      have hb1 : (bytesOf "sat_id" == bytesOf "format") = false := by decide
      have hb2 : (bytesOf "format" == bytesOf "format") = true := by decide
      simp [valuesOf, telemetryParams, List.filter_cons, hb1, hb2]

/-- C5 witness: for satellite `"43770"` the built URL's query decodes to
`sat_id=43770` and `format=json`. -/
theorem telemetry_query_contract_app :
    bytesOK (bytesOf "43770") ∧
    ∃ u, buildGetURL (NewClient []) strTelemetryEndpoint (telemetryParams (bytesOf "43770")) =
        .ok u ∧
      valuesGet (parseQuery u.RawQuery).1 (bytesOf "sat_id") = [bytesOf "43770"] ∧
      valuesGet (parseQuery u.RawQuery).1 (bytesOf "format") = [bytesOf "json"] :=
  ⟨by decide, (telemetry_query_contract [] (bytesOf "43770") envDecodeOk (by decide)).2⟩
